import Mathlib

/-!
Verification of the `flask_auto_healer` core pipeline
(`core/detector.py`, `core/diagnostic.py`, `core/healing.py`)
against its natural-language specification.

The Python source is shallowly embedded: file contents are lists of
characters, filesystems are maps from path strings to optional contents,
and the regex patterns of the source (which are all literal-text or
simple character-class patterns) are embedded as explicit character
scanners with the same matching semantics.
-/

namespace FlaskAutoHealer

/-! ## Healing session state (`healing.py`: `HealingEngine`)

`HealingEngine.heal` optionally calls `create_backups`, then runs the
category healers.  Every individual repair in `_heal_routes`,
`_heal_templates`, `_heal_database`, `_heal_code`, `_heal_security` and
`_heal_performance` follows the same shape, inside a `try`/`except` that
skips the repair on failure:

  - `self.backup_file(path)` — lazily creates the backup root if
    `self.backup_dir` is unset, then `shutil.copy2`s the file's current
    bytes to the mirrored path under the backup root (overwriting any
    earlier backup of the same file);
  - read the file, compute the new text, write it back.

A repair is modeled as a target path plus the text transformation it
performs; a session is a list of repairs executed left to right. -/

/-- One repair of the healing engine: the file it targets and the
content rewrite it applies (`read` → transform → `write`). -/
structure Repair where
  file : String
  transform : String → String

/-- The mutable state of a healing session: the project tree, the
mirrored backup tree, and whether the backup root has been created
(`self.backup_dir` being set). -/
structure HealState where
  projectFs : String → Option String
  backupFs : String → Option String
  backupDirSet : Bool

/-- Point update of a path-indexed map (one file written). -/
def fsWrite (fs : String → Option String) (p : String) (v : String) :
    String → Option String :=
  fun q => if q = p then some v else fs q

/-- One repair step of `heal`: `backup_file` first (which lazily sets
the backup root and copies the file's current bytes over the mirrored
backup path), then the rewrite of the target file.  If the target file
does not exist, `shutil.copy2` raises and the repair's `except` clause
skips it, leaving the state unchanged. -/
def applyRepair (st : HealState) (r : Repair) : HealState :=
  match st.projectFs r.file with
  | none => st
  | some c =>
      { projectFs := fsWrite st.projectFs r.file (r.transform c)
        backupFs := fsWrite st.backupFs r.file c
        backupDirSet := true }

/-- `HealingEngine.heal(create_backups)`: eagerly create the backup
root when asked, then run all repairs in order. -/
def healSession (createBackups : Bool) (rs : List Repair) (st : HealState) :
    HealState :=
  rs.foldl applyRepair
    (if createBackups then { st with backupDirSet := true } else st)

/-! Helper lemmas about `applyRepair` and `healSession`. -/

theorem fsWrite_same (fs : String → Option String) (p : String) (v : String) :
    fsWrite fs p v p = some v := by
  simp [fsWrite]

theorem fsWrite_other (fs : String → Option String) {p q : String}
    (v : String) (h : q ≠ p) : fsWrite fs p v q = fs q := by
  simp [fsWrite, h]

/-- A repair touching a different file leaves a path's project content
and backup content unchanged. -/
theorem applyRepair_other (st : HealState) (r : Repair) {p : String}
    (h : r.file ≠ p) :
    (applyRepair st r).projectFs p = st.projectFs p ∧
    (applyRepair st r).backupFs p = st.backupFs p := by
  unfold applyRepair
  cases st.projectFs r.file with
  | none => exact ⟨rfl, rfl⟩
  | some c =>
      have hp : ¬ p = r.file := fun hq => h hq.symm
      refine ⟨?_, ?_⟩ <;> simp [fsWrite, hp]

/-- A run of repairs none of which targets `p` leaves `p`'s project
content and backup content unchanged. -/
theorem foldl_applyRepair_other (rs : List Repair) (st : HealState)
    {p : String} (h : ∀ r ∈ rs, r.file ≠ p) :
    (rs.foldl applyRepair st).projectFs p = st.projectFs p ∧
    (rs.foldl applyRepair st).backupFs p = st.backupFs p := by
  induction rs generalizing st with
  | nil => exact ⟨rfl, rfl⟩
  | cons r rs ih =>
      have hr : r.file ≠ p := h r (by simp)
      have hrest : ∀ r' ∈ rs, r'.file ≠ p := fun r' hr' => h r' (by simp [hr'])
      have h1 := applyRepair_other st r hr
      have h2 := ih (applyRepair st r) hrest
      exact ⟨h2.1.trans h1.1, h2.2.trans h1.2⟩

/-- If the final state has no backup for `p`, then no earlier state had
one either: `applyRepair` never deletes a backup. -/
theorem foldl_applyRepair_backup_none (rs : List Repair) (st : HealState)
    {p : String} (h : (rs.foldl applyRepair st).backupFs p = none) :
    st.backupFs p = none := by
  induction rs generalizing st with
  | nil => exact h
  | cons r rs ih =>
      have h1 : (applyRepair st r).backupFs p = none := ih _ h
      unfold applyRepair at h1
      revert h1
      cases hc : st.projectFs r.file with
      | none => exact fun h1 => h1
      | some c =>
          intro h1
          by_cases hp : p = r.file
          · subst hp; simp [fsWrite] at h1
          · simpa [fsWrite, hp] using h1

/-- If the final state of a run has no backup for `p`, then `p` was
never modified during the run (each modification writes a backup
first). -/
theorem foldl_applyRepair_none_unmodified (rs : List Repair)
    (st : HealState) {p : String}
    (h : (rs.foldl applyRepair st).backupFs p = none) :
    (rs.foldl applyRepair st).projectFs p = st.projectFs p := by
  induction rs generalizing st with
  | nil => rfl
  | cons r rs ih =>
      have hstep : (applyRepair st r).backupFs p = none :=
        foldl_applyRepair_backup_none rs (applyRepair st r) h
      have htail := ih (applyRepair st r) h
      have hkeep : (applyRepair st r).projectFs p = st.projectFs p := by
        unfold applyRepair at hstep ⊢
        revert hstep
        cases hc : st.projectFs r.file with
        | none => intro _; rfl
        | some c =>
            intro hstep
            by_cases hp : p = r.file
            · subst hp; simp [fsWrite] at hstep
            · simp [fsWrite, hp]
      exact htail.trans hkeep

/-- `applyRepair` never clears the backup-root flag. -/
theorem foldl_applyRepair_dirSet_mono (rs : List Repair) (st : HealState)
    (h : st.backupDirSet = true) :
    (rs.foldl applyRepair st).backupDirSet = true := by
  induction rs generalizing st with
  | nil => exact h
  | cons r rs ih =>
      apply ih
      unfold applyRepair
      cases st.projectFs r.file <;> simp [h]

/-- A run that modifies some file has created the backup root. -/
theorem foldl_applyRepair_modified_dirSet (rs : List Repair)
    (st : HealState) {p : String}
    (h : (rs.foldl applyRepair st).projectFs p ≠ st.projectFs p) :
    (rs.foldl applyRepair st).backupDirSet = true := by
  induction rs generalizing st with
  | nil => exact absurd rfl h
  | cons r rs ih =>
      cases hc : st.projectFs r.file with
      | none =>
          have hid : applyRepair st r = st := by unfold applyRepair; rw [hc]
          rw [List.foldl_cons, hid] at h ⊢
          exact ih st h
      | some c =>
          have hset : (applyRepair st r).backupDirSet = true := by
            unfold applyRepair; rw [hc]
          rw [List.foldl_cons]
          exact foldl_applyRepair_dirSet_mono rs _ hset

/-- Concrete healing scenario: one project file `"a"` with content
`"v0"`, and two repairs that both target it. -/
def cexSt : HealState :=
  { projectFs := fun q => if q = "a" then some "v0" else none
    backupFs := fun _ => none
    backupDirSet := false }

/-- First repair of the scenario: append `"1"` to file `"a"`. -/
def cexR1 : Repair := ⟨"a", fun c => c ++ "1"⟩

/-- Second repair of the scenario: append `"2"` to file `"a"`. -/
def cexR2 : Repair := ⟨"a", fun c => c ++ "2"⟩

/-- C1 counterexample: with two repairs to the same file in one
session, the session's final backup of `"a"` holds `"v01"` — the
content before the *second* modification — and not the content
`"v0"` the file had immediately before its first modification, because
`backup_file` runs again before the second repair and overwrites the
first backup.  The claim's required backup content `"v0"` is absent. -/
theorem C1_counterexample :
    (healSession true [cexR1, cexR2] cexSt).projectFs "a" = some "v012" ∧
    (healSession true [cexR1, cexR2] cexSt).backupFs "a" = some "v01" ∧
    ("v01" : String) ≠ "v0" := by
  refine ⟨rfl, rfl, by decide⟩

/-- C1 (amended): every file `heal` modifies has a backup under the
session backup root, but its content is byte-identical to the file's
content immediately before the *last* repair that modified it in the
session (each repair re-copies the file over the same backup path
before writing, so earlier backups of the same file are overwritten).
Here `r` is the last repair of the session targeting `r.file`, and `c`
is the file's content just before `r` runs. -/
theorem C1_backup_holds_pre_last_modification (b : Bool) (st : HealState)
    (rs1 rs2 : List Repair) (r : Repair) (c : String)
    (hlast : ∀ r' ∈ rs2, r'.file ≠ r.file)
    (hc : (healSession b rs1 st).projectFs r.file = some c) :
    (healSession b (rs1 ++ r :: rs2) st).backupFs r.file = some c ∧
    (healSession b (rs1 ++ r :: rs2) st).projectFs r.file =
      some (r.transform c) := by
  unfold healSession at hc ⊢
  rw [List.foldl_append, List.foldl_cons]
  set st1 := rs1.foldl applyRepair
    (if b then { st with backupDirSet := true } else st) with hst1
  have hstep : (applyRepair st1 r).backupFs r.file = some c ∧
      (applyRepair st1 r).projectFs r.file = some (r.transform c) := by
    unfold applyRepair
    rw [hc]
    exact ⟨fsWrite_same _ _ _, fsWrite_same _ _ _⟩
  have hrest := foldl_applyRepair_other rs2 (applyRepair st1 r) hlast
  exact ⟨hrest.2.trans hstep.1, hrest.1.trans hstep.2⟩

/-- Witness for `C1_backup_holds_pre_last_modification` at a concrete
session of one repair. -/
theorem C1_witness :
    (healSession false [cexR1] cexSt).backupFs "a" = some "v0" ∧
    (healSession false [cexR1] cexSt).projectFs "a" = some "v01" := by
  have h := C1_backup_holds_pre_last_modification false cexSt [] [] cexR1 "v0"
    (by intro r' hr'; cases hr') rfl
  exact ⟨h.1, h.2⟩

/-- C10: even with backup creation disabled (`create_backups = False`
passed to `heal`), every repair still backs up its target file first,
because `backup_file` lazily initializes the session backup root; a
file is never left modified without a backup on disk, and any
modification implies the backup root was created. -/
theorem C10_backups_disabled_still_backs_up (rs : List Repair)
    (st : HealState) (f : String)
    (hmod : (healSession false rs st).projectFs f ≠ st.projectFs f) :
    ((healSession false rs st).backupFs f).isSome = true ∧
    (healSession false rs st).backupDirSet = true := by
  unfold healSession at hmod ⊢
  simp only [Bool.false_eq_true, if_false] at hmod ⊢
  constructor
  · cases hb : (rs.foldl applyRepair st).backupFs f with
    | none => exact absurd (foldl_applyRepair_none_unmodified rs st hb) hmod
    | some c => rfl
  · exact foldl_applyRepair_modified_dirSet rs st hmod

/-- Witness for `C10_backups_disabled_still_backs_up` at a concrete
one-repair session run with backups disabled. -/
theorem C10_witness :
    ((healSession false [cexR1] cexSt).backupFs "a").isSome = true ∧
    (healSession false [cexR1] cexSt).backupDirSet = true := by
  exact C10_backups_disabled_still_backs_up [cexR1] cexSt "a" (by decide)

/-! ## Routes and duplicate detection (`diagnostic.py`: `_diagnose_routes`)

`DiagnosticEngine._diagnose_routes` checks the extracted route list for
duplicated paths with a dictionary of already-seen paths:

    route_paths = {}
    for route in routes:
        path = route['path']
        if path in route_paths:
            self.issues['routes'].append({... 'duplicate_route' ...})
        else:
            route_paths[path] = route
-/

/-- A route record as produced by `FlaskProjectDetector.get_routes`:
declaring file, owning app/blueprint variable, URL path, optional
methods list text, and optional resolved handler name. -/
structure Route where
  file : String
  app_or_blueprint : String
  path : String
  methods : Option String
  function : Option String
deriving DecidableEq

/-- A routing issue record appended by `_diagnose_routes`. -/
structure RouteIssue where
  type : String
  file : String
  path : String
  function : Option String
  severity : String
  description : String
deriving DecidableEq

/-- The `duplicate_route` issue for one extra occurrence of a path. -/
def mkDuplicateRouteIssue (r : Route) : RouteIssue :=
  { type := "duplicate_route"
    file := r.file
    path := r.path
    function := r.function
    severity := "high"
    description := "Rota duplicada: " ++ r.path }

/-- The duplicate-route loop with its accumulated set of seen paths
(the keys of the `route_paths` dictionary). -/
def duplicateRouteScan : List Route → List String → List RouteIssue
  | [], _ => []
  | r :: rs, seen =>
      if r.path ∈ seen then
        mkDuplicateRouteIssue r :: duplicateRouteScan rs seen
      else
        duplicateRouteScan rs (r.path :: seen)

/-- The `duplicate_route` issues emitted by `_diagnose_routes` for an
extracted route list. -/
def duplicateRouteIssues (routes : List Route) : List RouteIssue :=
  duplicateRouteScan routes []

theorem duplicateRouteScan_filter (p : String) :
    ∀ (rs : List Route) (seen : List String),
    (duplicateRouteScan rs seen).filter (fun i => i.path == p) =
      if p ∈ seen then
        ((rs.filter (fun r => r.path == p)).map mkDuplicateRouteIssue)
      else
        (((rs.filter (fun r => r.path == p)).drop 1).map
          mkDuplicateRouteIssue) := by
  intro rs
  induction rs with
  | nil => intro seen; by_cases h : p ∈ seen <;> simp [duplicateRouteScan, h]
  | cons r rs ih =>
      intro seen
      by_cases hmem : r.path ∈ seen
      · by_cases hp : r.path = p
        · have hpseen : p ∈ seen := hp ▸ hmem
          simp only [duplicateRouteScan, if_pos hmem, if_pos hpseen,
            List.filter_cons]
          have hip : ((mkDuplicateRouteIssue r).path == p) = true := by
            simp [mkDuplicateRouteIssue, hp]
          have hrp : (r.path == p) = true := by simp [hp]
          simp only [hip, hrp, if_pos, List.map_cons]
          rw [ih seen, if_pos hpseen]
        · have hip : ((mkDuplicateRouteIssue r).path == p) = false := by
            simp [mkDuplicateRouteIssue, hp]
          have hrp : (r.path == p) = false := by simp [hp]
          simp only [duplicateRouteScan, if_pos hmem, List.filter_cons,
            hip, hrp, Bool.false_eq_true, if_false]
          exact ih seen
      · by_cases hp : r.path = p
        · have hpseen : p ∉ seen := fun hs => hmem (hp ▸ hs)
          have hrp : (r.path == p) = true := by simp [hp]
          simp only [duplicateRouteScan, if_neg hmem, List.filter_cons,
            hrp, if_pos]
          rw [ih (r.path :: seen)]
          have : p ∈ r.path :: seen := by simp [hp]
          rw [if_pos this, if_neg hpseen, List.drop_one, List.tail_cons]
        · have hrp : (r.path == p) = false := by simp [hp]
          simp only [duplicateRouteScan, if_neg hmem, List.filter_cons,
            hrp, Bool.false_eq_true, if_false]
          rw [ih (r.path :: seen)]
          have hiff : (p ∈ r.path :: seen) ↔ (p ∈ seen) := by
            constructor
            · intro h
              rcases List.mem_cons.mp h with h1 | h2
              · exact absurd h1.symm hp
              · exact h2
            · exact fun h => List.mem_cons_of_mem _ h
          by_cases hs : p ∈ seen
          · rw [if_pos (hiff.mpr hs), if_pos hs]
          · rw [if_neg (fun h => hs (hiff.mp h)), if_neg hs]

/-- Every emitted duplicate issue is the issue of one of the scanned
routes. -/
theorem duplicateRouteScan_mem {i : RouteIssue} :
    ∀ (rs : List Route) (seen : List String),
    i ∈ duplicateRouteScan rs seen → ∃ r ∈ rs, i = mkDuplicateRouteIssue r := by
  intro rs
  induction rs with
  | nil => intro seen h; cases h
  | cons r rs ih =>
      intro seen h
      by_cases hmem : r.path ∈ seen
      · rw [duplicateRouteScan, if_pos hmem] at h
        rcases List.mem_cons.mp h with h1 | h2
        · exact ⟨r, by simp, h1⟩
        · obtain ⟨r', hr', hi⟩ := ih seen h2
          exact ⟨r', by simp [hr'], hi⟩
      · rw [duplicateRouteScan, if_neg hmem] at h
        obtain ⟨r', hr', hi⟩ := ih (r.path :: seen) h
        exact ⟨r', by simp [hr'], hi⟩

/-- C2: for a route list in which some path occurs `k+1` times,
`_diagnose_routes` emits exactly `k` `duplicate_route` issues for that
path — one per occurrence beyond the first, in extraction order — each
with severity `high`; in particular, for exactly two routes with the
same path it emits exactly one issue, referencing the second
declaration. -/
theorem C2_duplicate_route_per_extra_occurrence :
    (∀ (routes : List Route) (p : String),
        (duplicateRouteIssues routes).filter (fun i => i.path == p) =
          ((routes.filter (fun r => r.path == p)).drop 1).map
            mkDuplicateRouteIssue) ∧
    (∀ (routes : List Route) (p : String),
        ((duplicateRouteIssues routes).filter (fun i => i.path == p)).length
          = (routes.filter (fun r => r.path == p)).length - 1) ∧
    (∀ (routes : List Route) (i : RouteIssue),
        i ∈ duplicateRouteIssues routes →
          i.severity = "high" ∧ i.type = "duplicate_route") ∧
    (∀ r1 r2 : Route, r1.path = r2.path →
        duplicateRouteIssues [r1, r2] = [mkDuplicateRouteIssue r2]) := by
  have hfilter : ∀ (routes : List Route) (p : String),
      (duplicateRouteIssues routes).filter (fun i => i.path == p) =
        ((routes.filter (fun r => r.path == p)).drop 1).map
          mkDuplicateRouteIssue := by
    intro routes p
    have h := duplicateRouteScan_filter p routes []
    simpa [duplicateRouteIssues] using h
  refine ⟨hfilter, ?_, ?_, ?_⟩
  · intro routes p
    rw [hfilter routes p, List.length_map, List.length_drop]
  · intro routes i hi
    obtain ⟨r, _, hir⟩ := duplicateRouteScan_mem routes [] hi
    subst hir
    exact ⟨rfl, rfl⟩
  · intro r1 r2 hp
    simp [duplicateRouteIssues, duplicateRouteScan, hp]

/-! ## Route functions and the `missing_return` rule
(`diagnostic.py`: `_diagnose_routes`; `healing.py`: `_heal_routes`)

The diagnostic walks each parsed route file; a `FunctionDef` whose
decorator list contains a `Call` on an attribute named `route` is a
route function, and if no `Return` node occurs in its body a
`missing_return` issue (severity `high`) is recorded for it.

The repair locates the first `FunctionDef` of that name, and inserts a
`return render_template(...)` line at `node.end_lineno - 1`, i.e.
immediately before the last statement of the function body (or as the
sole statement if the body were empty).  Function bodies are modeled as
flat sequences of single-line simple statements, so the line insertion
of the source is exactly a statement insertion before the last body
statement. -/

/-- Python's substring containment `needle in hay`. -/
def containsSub (needle : List Char) : List Char → Bool
  | [] => needle.isEmpty
  | c :: cs => needle.isPrefixOf (c :: cs) || containsSub needle cs

/-- `marker in content` for a string-literal marker. -/
def contentHas (content : List Char) (marker : String) : Bool :=
  containsSub marker.toList content

/-- `content.split('\n')`. -/
def splitNl : List Char → List (List Char)
  | [] => [[]]
  | c :: cs =>
      if c = '\n' then [] :: splitNl cs
      else
        match splitNl cs with
        | [] => [[c]]
        | l :: ls => (c :: l) :: ls

/-- `'\n'.join(lines)`. -/
def joinNl : List (List Char) → List Char
  | [] => []
  | [l] => l
  | l :: ls => l ++ '\n' :: joinNl ls

/-! ## Project structure detection (`detector.py`: `FlaskProjectDetector`)

`detect` runs `_find_flask_files` (which *appends* the classified files
of the walked tree to the detector's accumulating lists), then
`_analyze_app_files` (which appends the Flask-instance assignments and
factory functions found in the current `app_files`), then derives the
structure map: project pattern, selected factory function or app
instance, database backend and auth system. -/

/-- The callee shape of an assignment's right-hand-side `ast.Call`:
a plain name (`Flask(...)`) or an attribute (`flask.Flask(...)`). -/
inductive PyCallee where
  | nameId : String → PyCallee
  | attr : String → PyCallee
deriving DecidableEq

/-- An assignment `target = Call(...)` found by walking a parsed file. -/
structure PyAssign where
  target : String
  callee : PyCallee
  line : Nat
deriving DecidableEq

/-- A function definition found by walking a parsed file: name and
source span (`lineno`, `end_lineno`). -/
structure PyFuncInfo where
  name : String
  line : Nat
  endLine : Nat
deriving DecidableEq

/-- A Python source file of the scanned tree: path, raw text, and the
call-assignments and function definitions of its parse, in `ast.walk`
order. -/
structure SrcFile where
  path : String
  content : List Char
  assigns : List PyAssign
  defs : List PyFuncInfo
deriving DecidableEq

/-- The walked project tree: Python files in `os.walk` order (ignored
directories already pruned), and the `templates`/`static` directories
met during the walk. -/
structure ProjectTree where
  files : List SrcFile
  templateDirs : List String
  staticDirs : List String
deriving DecidableEq

/-- An `app = Flask(__name__)`-style instance record. -/
structure AppInstance where
  file : String
  name : String
  line : Nat
deriving DecidableEq

/-- A factory-function record. -/
structure FactoryFunction where
  file : String
  name : String
  line : Nat
deriving DecidableEq

/-- The accumulating state of `FlaskProjectDetector` (its list
attributes, never reset by `detect`). -/
structure Detector where
  app_files : List SrcFile
  blueprint_files : List SrcFile
  template_dirs : List String
  static_dirs : List String
  model_files : List SrcFile
  route_files : List SrcFile
  config_files : List SrcFile
  app_instances : List AppInstance
  factory_functions : List FactoryFunction
deriving DecidableEq

/-- A fresh `FlaskProjectDetector` (all list attributes empty). -/
def emptyDetector : Detector := ⟨[], [], [], [], [], [], [], [], []⟩

/-- `'import Flask' in content or 'from flask import' in content`. -/
def isAppFile (f : SrcFile) : Bool :=
  contentHas f.content "import Flask" || contentHas f.content "from flask import"

/-- `'Blueprint(' in content or 'Blueprint (' in content`. -/
def isBlueprintFile (f : SrcFile) : Bool :=
  contentHas f.content "Blueprint(" || contentHas f.content "Blueprint ("

/-- `'@app.route' in content or '@blueprint.route' in content or
'.route(' in content`. -/
def isRouteFile (f : SrcFile) : Bool :=
  contentHas f.content "@app.route" || contentHas f.content "@blueprint.route"
    || contentHas f.content ".route("

/-- `'db.Model' in content or 'SQLAlchemy' in content`. -/
def isModelFile (f : SrcFile) : Bool :=
  contentHas f.content "db.Model" || contentHas f.content "SQLAlchemy"

/-- `'app.config' in content or 'Config' in content`. -/
def isConfigFile (f : SrcFile) : Bool :=
  contentHas f.content "app.config" || contentHas f.content "Config"

/-- `_find_flask_files`: append the classified files of the walk to the
detector's lists (the sub-classifications apply only to files already
recognized as app files). -/
def find_flask_files (t : ProjectTree) (d : Detector) : Detector :=
  { d with
    app_files := d.app_files ++ t.files.filter isAppFile
    blueprint_files := d.blueprint_files ++
      t.files.filter (fun f => isAppFile f && isBlueprintFile f)
    route_files := d.route_files ++
      t.files.filter (fun f => isAppFile f && isRouteFile f)
    model_files := d.model_files ++
      t.files.filter (fun f => isAppFile f && isModelFile f)
    config_files := d.config_files ++
      t.files.filter (fun f => isAppFile f && isConfigFile f)
    template_dirs := d.template_dirs ++ t.templateDirs
    static_dirs := d.static_dirs ++ t.staticDirs }

/-- `_is_flask_instance`: the called constructor is the name `Flask`
or an attribute `.Flask`. -/
def is_flask_instance : PyCallee → Bool
  | PyCallee.nameId n => n == "Flask"
  | PyCallee.attr n => n == "Flask"

/-- The fixed factory-name list of `_is_factory_function`. -/
def factoryNames : List String :=
  ["create_app", "make_app", "get_app", "setup_app", "init_app"]

/-- `content.split('\n')[lineno-1:end_lineno]` joined back with
newlines: the source text of a function's span. -/
def funcBodyText (content : List Char) (line endLine : Nat) : List Char :=
  joinNl (((splitNl content).drop (line - 1)).take (endLine - (line - 1)))

/-- `_is_factory_function`: a fixed factory name, or a body containing
both `Flask(` and `return`. -/
def is_factory_function (fd : PyFuncInfo) (content : List Char) : Bool :=
  fd.name ∈ factoryNames ||
    (contentHas (funcBodyText content fd.line fd.endLine) "Flask(" &&
     contentHas (funcBodyText content fd.line fd.endLine) "return")

/-- The Flask-instance records of one file, in walk order. -/
def fileInstances (f : SrcFile) : List AppInstance :=
  (f.assigns.filter (fun a => is_flask_instance a.callee)).map
    (fun a => ⟨f.path, a.target, a.line⟩)

/-- The factory-function records of one file, in walk order. -/
def fileFactories (f : SrcFile) : List FactoryFunction :=
  (f.defs.filter (fun fd => is_factory_function fd f.content)).map
    (fun fd => ⟨f.path, fd.name, fd.line⟩)

/-- `_analyze_app_files`: append the instances and factories of the
current `app_files` to the accumulating lists. -/
def analyze_app_files (d : Detector) : Detector :=
  { d with
    app_instances := d.app_instances ++ d.app_files.flatMap fileInstances
    factory_functions := d.factory_functions ++
      d.app_files.flatMap fileFactories }

/-- The project-pattern part of the structure map. -/
structure PatternInfo where
  pattern : String
  factory_function : Option FactoryFunction
  app_instance : Option AppInstance
deriving DecidableEq

/-- `_detect_project_pattern`: factory wins and selects the first
factory found; otherwise an instance selects the first instance, with
`modular` when blueprint files exist and `monolithic` when not;
otherwise `unknown`. -/
def detect_project_pattern (d : Detector) : PatternInfo :=
  match d.factory_functions with
  | ff :: _ => ⟨"factory", some ff, none⟩
  | [] =>
      match d.app_instances with
      | ai :: _ =>
          ⟨if d.blueprint_files.isEmpty then "monolithic" else "modular",
            none, some ai⟩
      | [] => ⟨"unknown", none, none⟩

/-- A detected backend (database or auth): kind and source file. -/
structure BackendInfo where
  type : String
  file : Option String
deriving DecidableEq

/-- The marker table of `_detect_database`, in its fixed order. -/
def db_patterns : List (String × List String) :=
  [("sqlite", ["sqlite://", "sqlite:///", ".db"]),
   ("postgresql", ["postgresql://", "postgres://", "psycopg2"]),
   ("mysql", ["mysql://", "pymysql", "mysqlclient"]),
   ("mongodb", ["mongodb://", "pymongo", "MongoEngine"])]

/-- The marker table of `_detect_auth_system`, in its fixed order. -/
def auth_patterns : List (String × List String) :=
  [("flask_login", ["flask_login", "LoginManager", "current_user"]),
   ("jwt", ["jwt", "JWT", "JWTManager", "create_access_token"]),
   ("oauth", ["oauth", "OAuth", "OAuthlib"]),
   ("session", ["session[", "session."])]

/-- The first kind of the marker table whose any marker occurs in the
file content (the inner two loops of the detection sweep). -/
def fileBackendKind (table : List (String × List String))
    (content : List Char) : Option String :=
  (table.find? (fun kp => kp.2.any (fun m => contentHas content m))).map
    (fun kp => kp.1)

/-- The file-scan loop of backend detection: the first file with any
matching marker wins and the scan stops. -/
def firstBackendMatch (table : List (String × List String)) :
    List SrcFile → Option BackendInfo
  | [] => none
  | f :: fs =>
      match fileBackendKind table f.content with
      | some k => some ⟨k, some f.path⟩
      | none => firstBackendMatch table fs

/-- `_detect_database`: sweep `app_files + config_files`; on no match,
fall back to `unknown_sql` when model files exist, else `none`. -/
def detect_database (d : Detector) : BackendInfo :=
  match firstBackendMatch db_patterns (d.app_files ++ d.config_files) with
  | some r => r
  | none =>
      if d.model_files.isEmpty then ⟨"none", none⟩
      else ⟨"unknown_sql", d.model_files.head?.map (fun f => f.path)⟩

/-- `_detect_auth_system`: sweep `app_files` only. -/
def detect_auth_system (d : Detector) : BackendInfo :=
  match firstBackendMatch auth_patterns d.app_files with
  | some r => r
  | none => ⟨"none", none⟩

/-- The structure map built by `detect` (`detected_structure`). -/
structure ProjectStructure where
  pattern : String
  factory_function : Option FactoryFunction
  app_instance : Option AppInstance
  database : BackendInfo
  auth : BackendInfo
  app_files : List String
  blueprint_files : List String
  template_dirs : List String
  static_dirs : List String
  model_files : List String
  route_files : List String
  config_files : List String
deriving DecidableEq

/-- `_build_structure_map` together with the pattern/database/auth
detection results, over the detector state left by `detect`. -/
def build_structure (d : Detector) : ProjectStructure :=
  { pattern := (detect_project_pattern d).pattern
    factory_function := (detect_project_pattern d).factory_function
    app_instance := (detect_project_pattern d).app_instance
    database := detect_database d
    auth := detect_auth_system d
    app_files := d.app_files.map (fun f => f.path)
    blueprint_files := d.blueprint_files.map (fun f => f.path)
    template_dirs := d.template_dirs
    static_dirs := d.static_dirs
    model_files := d.model_files.map (fun f => f.path)
    route_files := d.route_files.map (fun f => f.path)
    config_files := d.config_files.map (fun f => f.path) }

/-- `FlaskProjectDetector.detect`: the state mutation of one call
(find files, then analyze app files). -/
def detect (d : Detector) (t : ProjectTree) : Detector :=
  analyze_app_files (find_flask_files t d)

/-- The structure returned by one `detect` call from state `d`. -/
def detectStructure (d : Detector) (t : ProjectTree) : ProjectStructure :=
  build_structure (detect d t)

theorem firstBackendMatch_append (table : List (String × List String))
    (l1 l2 : List SrcFile) :
    firstBackendMatch table (l1 ++ l2) =
      (firstBackendMatch table l1).orElse
        (fun _ => firstBackendMatch table l2) := by
  induction l1 with
  | nil => simp [firstBackendMatch, Option.orElse]
  | cons f fs ih =>
      rw [List.cons_append, firstBackendMatch, firstBackendMatch]
      cases fileBackendKind table f.content with
      | none => simpa using ih
      | some k => simp [Option.orElse]

/-- A single-file tree whose file is recognized as a Flask app file. -/
def cexTree : ProjectTree :=
  { files := [⟨"app.py", "from flask import Flask".toList, [], []⟩]
    templateDirs := []
    staticDirs := [] }

/-- C3 counterexample: two successive `detect` calls on the *same*
detector instance do not yield structurally equal models — the second
call appends the walked files again, so every file set is duplicated
(`app_files` becomes `["app.py", "app.py"]`). -/
theorem C3_counterexample :
    detectStructure (detect emptyDetector cexTree) cexTree ≠
      detectStructure emptyDetector cexTree ∧
    (detectStructure (detect emptyDetector cexTree) cexTree).app_files =
      ["app.py", "app.py"] ∧
    (detectStructure emptyDetector cexTree).app_files = ["app.py"] := by
  refine ⟨by decide, by decide, by decide⟩

/-- C3 (amended): `detect` is idempotent only across fresh detector
instances; on the same instance, a second `detect` over an unchanged
tree leaves the pattern, the selected entry descriptor and the
database/auth results structurally equal to the first call's, but
appends every file set to itself, so the models are not equal and the
file sets of the second model contain each discovered file twice. -/
theorem C3_repeat_detect_doubles_file_sets (t : ProjectTree) :
    detectStructure (detect emptyDetector t) t =
      { detectStructure emptyDetector t with
        app_files := (detectStructure emptyDetector t).app_files ++
          (detectStructure emptyDetector t).app_files
        blueprint_files :=
          (detectStructure emptyDetector t).blueprint_files ++
            (detectStructure emptyDetector t).blueprint_files
        template_dirs := (detectStructure emptyDetector t).template_dirs ++
          (detectStructure emptyDetector t).template_dirs
        static_dirs := (detectStructure emptyDetector t).static_dirs ++
          (detectStructure emptyDetector t).static_dirs
        model_files := (detectStructure emptyDetector t).model_files ++
          (detectStructure emptyDetector t).model_files
        route_files := (detectStructure emptyDetector t).route_files ++
          (detectStructure emptyDetector t).route_files
        config_files := (detectStructure emptyDetector t).config_files ++
          (detectStructure emptyDetector t).config_files } := by
  have hd1 : detect emptyDetector t =
      ⟨t.files.filter isAppFile,
       t.files.filter (fun f => isAppFile f && isBlueprintFile f),
       t.templateDirs, t.staticDirs,
       t.files.filter (fun f => isAppFile f && isModelFile f),
       t.files.filter (fun f => isAppFile f && isRouteFile f),
       t.files.filter (fun f => isAppFile f && isConfigFile f),
       (t.files.filter isAppFile).flatMap fileInstances,
       (t.files.filter isAppFile).flatMap fileFactories⟩ := by
    simp [detect, find_flask_files, analyze_app_files, emptyDetector]
  have hd2 : detect (detect emptyDetector t) t =
      ⟨(t.files.filter isAppFile) ++ t.files.filter isAppFile,
       (t.files.filter (fun f => isAppFile f && isBlueprintFile f)) ++
         t.files.filter (fun f => isAppFile f && isBlueprintFile f),
       t.templateDirs ++ t.templateDirs, t.staticDirs ++ t.staticDirs,
       (t.files.filter (fun f => isAppFile f && isModelFile f)) ++
         t.files.filter (fun f => isAppFile f && isModelFile f),
       (t.files.filter (fun f => isAppFile f && isRouteFile f)) ++
         t.files.filter (fun f => isAppFile f && isRouteFile f),
       (t.files.filter (fun f => isAppFile f && isConfigFile f)) ++
         t.files.filter (fun f => isAppFile f && isConfigFile f),
       ((t.files.filter isAppFile).flatMap fileInstances) ++
         (((t.files.filter isAppFile).flatMap fileInstances) ++
           (t.files.filter isAppFile).flatMap fileInstances),
       ((t.files.filter isAppFile).flatMap fileFactories) ++
         (((t.files.filter isAppFile).flatMap fileFactories) ++
           (t.files.filter isAppFile).flatMap fileFactories)⟩ := by
    rw [hd1]
    simp [detect, find_flask_files, analyze_app_files]
  have hpat : detect_project_pattern (detect (detect emptyDetector t) t) =
      detect_project_pattern (detect emptyDetector t) := by
    rw [hd2, hd1]
    rcases hΦ : (t.files.filter isAppFile).flatMap fileFactories with
      _ | ⟨φ, Φ'⟩
    · rcases hI : (t.files.filter isAppFile).flatMap fileInstances with
        _ | ⟨ai, I'⟩
      · simp [detect_project_pattern, hΦ, hI]
      · have hbe : ((t.files.filter
            (fun f => isAppFile f && isBlueprintFile f)) ++
            t.files.filter (fun f => isAppFile f && isBlueprintFile f)).isEmpty
            = (t.files.filter
                (fun f => isAppFile f && isBlueprintFile f)).isEmpty := by
          cases t.files.filter (fun f => isAppFile f && isBlueprintFile f) <;>
            simp
        simp [detect_project_pattern, hΦ, hI, hbe]
    · simp [detect_project_pattern, hΦ]
  have hdb : detect_database (detect (detect emptyDetector t) t) =
      detect_database (detect emptyDetector t) := by
    rw [hd2, hd1]
    unfold detect_database
    simp only [firstBackendMatch_append]
    cases firstBackendMatch db_patterns (t.files.filter isAppFile) with
    | some r => simp [Option.orElse]
    | none =>
        simp only [Option.orElse, Option.none_orElse]
        cases firstBackendMatch db_patterns
            (t.files.filter (fun f => isAppFile f && isConfigFile f)) with
        | some r => simp [Option.orElse]
        | none =>
            simp only [Option.orElse]
            cases hM : t.files.filter (fun f => isAppFile f && isModelFile f)
              with
            | nil => simp
            | cons m ms => simp
  have hauth :
      detect_auth_system (detect (detect emptyDetector t) t) =
        detect_auth_system (detect emptyDetector t) := by
    rw [hd2, hd1]
    unfold detect_auth_system
    rw [firstBackendMatch_append]
    cases firstBackendMatch auth_patterns (t.files.filter isAppFile) with
    | some r => simp [Option.orElse]
    | none => simp [Option.orElse]
  unfold detectStructure build_structure
  simp only [ProjectStructure.mk.injEq]
  refine ⟨congrArg PatternInfo.pattern hpat,
    congrArg PatternInfo.factory_function hpat,
    congrArg PatternInfo.app_instance hpat, hdb, hauth,
    ?_, ?_, ?_, ?_, ?_, ?_, ?_⟩ <;>
  · rw [hd2, hd1]
    try simp

/-- C6: the entry pattern is resolved by priority: any factory function
makes the pattern `factory` and selects the first factory found (scan
order = file discovery order); otherwise any application instance makes
the pattern `modular` when blueprint files are present and `monolithic`
when not, selecting the first instance; otherwise the pattern is
`unknown`. -/
theorem C6_pattern_resolution_priority (d : Detector) :
    (d.factory_functions ≠ [] →
        (build_structure d).pattern = "factory" ∧
        (build_structure d).factory_function = d.factory_functions.head?) ∧
    (d.factory_functions = [] → d.app_instances ≠ [] →
        ((d.blueprint_files ≠ [] → (build_structure d).pattern = "modular") ∧
         (d.blueprint_files = [] →
             (build_structure d).pattern = "monolithic") ∧
         (build_structure d).app_instance = d.app_instances.head?)) ∧
    (d.factory_functions = [] → d.app_instances = [] →
        (build_structure d).pattern = "unknown") := by
  refine ⟨?_, ?_, ?_⟩
  · intro h
    rcases hff : d.factory_functions with _ | ⟨ff, ffs⟩
    · exact absurd hff h
    · exact ⟨by simp [build_structure, detect_project_pattern, hff],
        by simp [build_structure, detect_project_pattern, hff]⟩
  · intro h1 h2
    rcases hai : d.app_instances with _ | ⟨ai, ais⟩
    · exact absurd hai h2
    · refine ⟨?_, ?_, ?_⟩
      · intro hb
        have hbe : d.blueprint_files.isEmpty = false := by
          rcases hbf : d.blueprint_files with _ | ⟨b, bs⟩
          · exact absurd hbf hb
          · simp
        simp [build_structure, detect_project_pattern, h1, hai, hbe]
      · intro hb
        simp [build_structure, detect_project_pattern, h1, hai, hb]
      · simp [build_structure, detect_project_pattern, h1, hai]
  · intro h1 h2
    simp [build_structure, detect_project_pattern, h1, h2]

/-- A detector state that found one factory function. -/
def c6Detector : Detector :=
  { emptyDetector with
    factory_functions := [⟨"app.py", "create_app", 3⟩] }

/-- Witness for `C6_pattern_resolution_priority` at a concrete detector
state with one factory function. -/
theorem C6_witness :
    (build_structure c6Detector).pattern = "factory" ∧
    (build_structure c6Detector).factory_function =
      some ⟨"app.py", "create_app", 3⟩ := by
  have h := (C6_pattern_resolution_priority c6Detector).1 (by decide)
  exact ⟨h.1, h.2⟩

theorem firstBackendMatch_of_prefix_none
    (table : List (String × List String)) (pre post : List SrcFile)
    (f : SrcFile) (k : String)
    (hpre : ∀ g ∈ pre, fileBackendKind table g.content = none)
    (hf : fileBackendKind table f.content = some k) :
    firstBackendMatch table (pre ++ f :: post) = some ⟨k, some f.path⟩ := by
  induction pre with
  | nil => rw [List.nil_append, firstBackendMatch, hf]
  | cons g gs ih =>
      rw [List.cons_append, firstBackendMatch, hpre g (by simp)]
      exact ih (fun g' hg' => hpre g' (by simp [hg']))

/-- C9: persistence detection scans entry files first and then config
files, and the first file in that scan order containing any marker of
any backend kind determines the reported kind and source file, after
which detection stops. -/
theorem C9_database_first_matching_file_wins (d : Detector)
    (pre post : List SrcFile) (f : SrcFile) (k : String)
    (hsplit : d.app_files ++ d.config_files = pre ++ f :: post)
    (hpre : ∀ g ∈ pre, fileBackendKind db_patterns g.content = none)
    (hf : fileBackendKind db_patterns f.content = some k) :
    detect_database d = ⟨k, some f.path⟩ ∧
    (build_structure d).database = ⟨k, some f.path⟩ := by
  have hmain : detect_database d = ⟨k, some f.path⟩ := by
    unfold detect_database
    rw [hsplit, firstBackendMatch_of_prefix_none db_patterns pre post f k
      hpre hf]
  exact ⟨hmain, by simpa [build_structure] using hmain⟩

/-- Entry file of the C9 witness scenario: no database marker. -/
def c9File1 : SrcFile := ⟨"a.py", "x = 1".toList, [], []⟩

/-- Config file of the C9 witness scenario: a sqlite URI marker. -/
def c9File2 : SrcFile :=
  ⟨"config.py", "DATABASE_URI = sqlite:///app.db".toList, [], []⟩

/-- Detector state of the C9 witness scenario. -/
def c9Detector : Detector :=
  { emptyDetector with
    app_files := [c9File1]
    config_files := [c9File2] }

/-- Witness for `C9_database_first_matching_file_wins`: the entry file
has no marker, so the config file scanned after it determines the
result. -/
theorem C9_witness :
    detect_database c9Detector = ⟨"sqlite", some "config.py"⟩ ∧
    (build_structure c9Detector).database = ⟨"sqlite", some "config.py"⟩ := by
  have h := C9_database_first_matching_file_wins c9Detector
    [c9File1] [] c9File2 "sqlite" (by decide)
    (by intro g hg
        rw [List.mem_singleton.mp hg]
        decide)
    (by decide)
  exact h

/-! ## `invalid_url_for` repair (`healing.py`: `_heal_templates`)

For an `invalid_url_for` issue the healer collects the known endpoint
identifiers (bare handler names and `owner.function` forms), asks
`difflib.get_close_matches(endpoint, endpoints, n=1, cutoff=0.6)` for
the closest candidate, and only when one is returned rewrites the
`url_for(...)` reference and records a `fixed_url_for` fix; when every
candidate scores below the cutoff no rewrite happens, the file content
is left unchanged and no fix is recorded.

`difflib` scores candidates with `SequenceMatcher.ratio`; the scoring
function is embedded as a parameter `sim`, and `get_close_matches` with
`n=1` as the largest `(score, candidate)` pair (Python compares these
tuples lexicographically, breaking score ties by string order). -/

/-- Python's `\s` class (`[ \t\n\r\f\v]`). -/
def isWsChar (c : Char) : Bool :=
  c == ' ' || c == '\t' || c == '\n' || c == '\r' || c == '\x0b' || c == '\x0c'

/-- A single or double quote (the `['"]` class). -/
def isQuoteChar (c : Char) : Bool := c == '"' || c == '\''

/-- Anchored match of a literal text; returns the rest on success. -/
def dropLit : List Char → List Char → Option (List Char)
  | [], l => some l
  | _ :: _, [] => none
  | p :: ps, c :: cs => if c = p then dropLit ps cs else none

/-- Python's lexicographic string comparison, over code points. -/
def charListLt : List Char → List Char → Bool
  | [], [] => false
  | [], _ :: _ => true
  | _ :: _, [] => false
  | a :: as, b :: bs =>
      if a < b then true else if b < a then false else charListLt as bs

/-- Lexicographic comparison of `(score, candidate)` pairs, as Python
compares the tuples built by `difflib.get_close_matches`. -/
def pairLtB (a b : ℚ × String) : Bool :=
  decide (a.1 < b.1) ||
    (decide (a.1 = b.1) && charListLt a.2.toList b.2.toList)

/-- `heapq.nlargest(1, ...)` over `(score, candidate)` tuples. -/
def nlargest1 (l : List (ℚ × String)) : Option (ℚ × String) :=
  l.foldl
    (fun best p =>
      match best with
      | none => some p
      | some q => if pairLtB q p then some p else some q)
    none

/-- `difflib.get_close_matches(word, possibilities, n=1, cutoff)` with
the similarity measure `sim` in place of `SequenceMatcher.ratio`:
keep the candidates scoring at least `cutoff`, and return the largest
`(score, candidate)` pair's candidate, if any. -/
def get_close_matches1 (sim : String → String → ℚ) (cutoff : ℚ)
    (word : String) (possibilities : List String) : Option String :=
  (nlargest1 ((possibilities.filter
      (fun c => decide (cutoff ≤ sim word c))).map
    (fun c => (sim word c, c)))).map (fun p => p.2)

/-- The cutoff used at the `_heal_templates` call site (`cutoff=0.6`). -/
def urlForCutoff : ℚ := 6 / 10

/-- Anchored match of `url_for\(\s*['"]ENDPOINT\s*['"]` (the rewrite
pattern of the repair, for a word-like endpoint reference that neither
starts nor ends with whitespace or a quote); returns the rest after the
match. -/
def matchUrlForAt (endpoint : List Char) (l : List Char) :
    Option (List Char) :=
  (dropLit "url_for(".toList l).bind fun r1 =>
    match r1.dropWhile isWsChar with
    | q :: r3 =>
        if isQuoteChar q then
          (dropLit endpoint r3).bind fun r4 =>
            match r4.dropWhile isWsChar with
            | q2 :: r6 => if isQuoteChar q2 then some r6 else none
            | [] => none
        else none
    | [] => none

/-- `re.sub` of the `url_for` pattern by `url_for('NEW'`, scanning left
to right and resuming after each match (fuel-bounded; the fuel
`l.length + 1` is enough since every step consumes at least one
character). -/
def subUrlForAux (endpoint newEp : List Char) : Nat → List Char → List Char
  | 0, l => l
  | _ + 1, [] => []
  | fuel + 1, c :: cs =>
      match matchUrlForAt endpoint (c :: cs) with
      | some rest =>
          ("url_for(".toList ++ '\'' :: newEp ++ ['\'']) ++
            subUrlForAux endpoint newEp fuel rest
      | none => c :: subUrlForAux endpoint newEp fuel cs

/-- The `url_for` endpoint rewrite applied to a template's content. -/
def subUrlFor (endpoint newEp : List Char) (l : List Char) : List Char :=
  subUrlForAux endpoint newEp (l.length + 1) l

/-- A `fixed_url_for` fix record. -/
structure UrlForFix where
  template : String
  old_endpoint : String
  new_endpoint : String
deriving DecidableEq

/-- The endpoint identifiers collected from the extracted routes whose
handler was resolved: the bare handler name, and the
`owner.function` form when the owner name is nonempty. -/
def routeEndpoints (routes : List Route) : List String :=
  routes.flatMap fun r =>
    match r.function with
    | some fn =>
        fn :: (if r.app_or_blueprint ≠ "" then
          [r.app_or_blueprint ++ "." ++ fn] else [])
    | none => []

/-- The `invalid_url_for` repair for one issue: rewrite and record a
fix only when `get_close_matches` returns a candidate. -/
def heal_invalid_url_for (sim : String → String → ℚ) (content : List Char)
    (tmpl : String) (endpoint : String) (endpoints : List String) :
    List Char × Option UrlForFix :=
  match get_close_matches1 sim urlForCutoff endpoint endpoints with
  | none => (content, none)
  | some e =>
      (subUrlFor endpoint.toList e.toList content, some ⟨tmpl, endpoint, e⟩)

theorem nlargest1_mem :
    ∀ (l : List (ℚ × String)) (acc : Option (ℚ × String))
      (p : ℚ × String),
      l.foldl
        (fun best q =>
          match best with
          | none => some q
          | some a => if pairLtB a q then some q else some a) acc = some p →
      p ∈ l ∨ acc = some p := by
  intro l
  induction l with
  | nil => intro acc p h; exact Or.inr h
  | cons q l ih =>
      intro acc p h
      rw [List.foldl_cons] at h
      rcases ih _ p h with h1 | h2
      · exact Or.inl (List.mem_cons_of_mem _ h1)
      · revert h2
        cases acc with
        | none =>
            intro h2
            have hqp : q = p := Option.some.inj h2
            exact Or.inl (hqp ▸ List.mem_cons_self q l)
        | some a =>
            intro h2
            have h2' : (if pairLtB a q then some q else some a) = some p := h2
            by_cases hlt : pairLtB a q = true
            · rw [if_pos hlt] at h2'
              have hqp : q = p := Option.some.inj h2'
              exact Or.inl (hqp ▸ List.mem_cons_self q l)
            · rw [if_neg hlt] at h2'
              exact Or.inr h2'

/-- C5: the `invalid_url_for` repair rewrites the template only when
the best candidate's similarity is at or above the configured cutoff
(and then records the fix for it); when every candidate is below the
cutoff, the template content is unchanged by the repair and no fix is
recorded. -/
theorem C5_url_for_rewrite_gated_by_cutoff (sim : String → String → ℚ)
    (content : List Char) (tmpl endpoint : String)
    (cands : List String) :
    ((∀ c ∈ cands, sim endpoint c < urlForCutoff) →
        heal_invalid_url_for sim content tmpl endpoint cands =
          (content, none)) ∧
    (∀ e, get_close_matches1 sim urlForCutoff endpoint cands = some e →
        urlForCutoff ≤ sim endpoint e ∧ e ∈ cands ∧
        heal_invalid_url_for sim content tmpl endpoint cands =
          (subUrlFor endpoint.toList e.toList content,
            some ⟨tmpl, endpoint, e⟩)) := by
  constructor
  · intro hbelow
    have hfil : cands.filter
        (fun c => decide (urlForCutoff ≤ sim endpoint c)) = [] := by
      rw [List.filter_eq_nil_iff]
      intro c hc
      simp [not_le.mpr (hbelow c hc)]
    unfold heal_invalid_url_for get_close_matches1
    rw [hfil]
    rfl
  · intro e he
    have hsome : ∃ p, nlargest1 ((cands.filter
        (fun c => decide (urlForCutoff ≤ sim endpoint c))).map
        (fun c => (sim endpoint c, c))) = some p ∧ p.2 = e := by
      unfold get_close_matches1 at he
      cases hn : nlargest1 ((cands.filter
          (fun c => decide (urlForCutoff ≤ sim endpoint c))).map
          (fun c => (sim endpoint c, c))) with
      | none => rw [hn] at he; cases he
      | some p =>
          rw [hn] at he
          exact ⟨p, rfl, Option.some.inj he⟩
    obtain ⟨p, hp, hpe⟩ := hsome
    have hmem : p ∈ (cands.filter
        (fun c => decide (urlForCutoff ≤ sim endpoint c))).map
        (fun c => (sim endpoint c, c)) := by
      rcases nlargest1_mem _ none p hp with h1 | h2
      · exact h1
      · cases h2
    obtain ⟨c, hcf, hcp⟩ := List.mem_map.mp hmem
    obtain ⟨hcmem, hcge⟩ := List.mem_filter.mp hcf
    have hce : c = e := by
      have : (sim endpoint c, c).2 = e := hcp ▸ hpe
      simpa using this
    subst hce
    refine ⟨by simpa using hcge, hcmem, ?_⟩
    unfold heal_invalid_url_for
    rw [he]

/-- Witness for `C5_url_for_rewrite_gated_by_cutoff`: the spec's
scenario where the only candidate for `show_usr` is the dissimilar
`list_all_items` (scored 0 by an exact-match similarity), leaving the
template unchanged and the issue without a fix. -/
theorem C5_witness :
    heal_invalid_url_for (fun a b => if a = b then 1 else 0)
      "href".toList "page.html" "show_usr" ["list_all_items"] =
      ("href".toList, none) := by
  apply (C5_url_for_rewrite_gated_by_cutoff
    (fun a b => if a = b then 1 else 0) "href".toList "page.html"
    "show_usr" ["list_all_items"]).1
  intro c hc
  rw [List.mem_singleton.mp hc,
    if_neg (by decide : ¬("show_usr" : String) = "list_all_items")]
  norm_num [urlForCutoff]

/-! ## Template block tags (`diagnostic.py`: `_diagnose_templates`)

The diagnostic collects every opened block with
`re.findall(r'{%\s*block\s+(\w+)\s*%}', content)` and, for each opened
block, reports `unclosed_block` (severity `high`) when
`re.search(r'{%\s*endblock\s*(?:NAME)?\s*%}', content)` finds no
matching close tag — a search over the *whole* file content, not only
the part after the opening tag. -/

/-- Python's `\w` class (ASCII letters, digits, underscore). -/
def isWordChar (c : Char) : Bool := c.isAlpha || c.isDigit || c == '_'

/-- Anchored match of the block-open pattern
`{%\s*block\s+(\w+)\s*%}`; returns the captured name and the rest
after the match. -/
def matchBlockOpenAt (l : List Char) : Option (List Char × List Char) :=
  (dropLit "\x7b%".toList l).bind fun r1 =>
    (dropLit "block".toList (r1.dropWhile isWsChar)).bind fun r2 =>
      match r2 with
      | c :: cs =>
          if isWsChar c then
            let r3 := cs.dropWhile isWsChar
            let name := r3.takeWhile isWordChar
            if name.isEmpty then none
            else
              (dropLit "%\x7d".toList
                  ((r3.dropWhile isWordChar).dropWhile isWsChar)).map
                (fun rest => (name, rest))
          else none
      | [] => none

/-- `re.findall` of the block-open pattern: all captured block names,
left to right, resuming after each match. -/
def findBlocksAux : Nat → List Char → List (List Char)
  | 0, _ => []
  | _ + 1, [] => []
  | fuel + 1, c :: cs =>
      match matchBlockOpenAt (c :: cs) with
      | some (name, rest) => name :: findBlocksAux fuel rest
      | none => findBlocksAux fuel cs

/-- The opened block names of a template's content. -/
def findBlocks (content : List Char) : List (List Char) :=
  findBlocksAux (content.length + 1) content

/-- Anchored match of `{%\s*endblock\s*(?:NAME)?\s*%}`: after
`endblock` and whitespace, either the block name followed by optional
whitespace and `%}`, or directly `%}` (the optional group empty). -/
def matchEndblockAt (name : List Char) (l : List Char) : Bool :=
  match (dropLit "\x7b%".toList l).bind
      (fun r1 => dropLit "endblock".toList (r1.dropWhile isWsChar)) with
  | none => false
  | some r2 =>
      (match dropLit name (r2.dropWhile isWsChar) with
       | some r4 => (dropLit "%\x7d".toList (r4.dropWhile isWsChar)).isSome
       | none => false) ||
      (dropLit "%\x7d".toList (r2.dropWhile isWsChar)).isSome

/-- `re.search` of the endblock pattern over the whole content. -/
def searchEndblock (name : List Char) : List Char → Bool
  | [] => false
  | c :: cs => matchEndblockAt name (c :: cs) || searchEndblock name cs

/-- A template issue record of `_diagnose_templates`. -/
structure TemplateIssue where
  type : String
  template : String
  block : String
  severity : String
deriving DecidableEq

/-- The `unclosed_block` issues of one template file. -/
def unclosedBlockIssues (tmpl : String) (content : List Char) :
    List TemplateIssue :=
  ((findBlocks content).filter (fun b => !(searchEndblock b content))).map
    (fun b => { type := "unclosed_block", template := tmpl,
                block := String.mk b, severity := "high" })

/-- C8 counterexample: for the content
`{% endblock %}{% block content %}` there is no matching `endblock`
anywhere *later* in the file than the opening tag, yet no
`unclosed_block` issue is reported, because the source searches the
whole content and accepts the bare `{% endblock %}` occurring *before*
the opening tag. -/
theorem C8_counterexample :
    unclosedBlockIssues "page.html"
        ("{% endblock %}{% block content %}".toList) = [] ∧
    findBlocks ("{% endblock %}{% block content %}".toList) =
      ["content".toList] ∧
    searchEndblock "content".toList ("{% block content %}".toList) =
      false := by
  refine ⟨by decide, by decide, by decide⟩

/-- C8 (amended): for every opened block of a template file, an
`unclosed_block` issue (severity `high`) is reported exactly when no
matching `endblock` tag (bare, or naming that block) occurs *anywhere
in the file* — the position of the close tag relative to the opening
tag is not considered. -/
theorem C8_unclosed_block_iff_no_endblock_anywhere (tmpl : String)
    (content : List Char) (b : List Char)
    (hb : b ∈ findBlocks content) :
    ((⟨"unclosed_block", tmpl, String.mk b, "high"⟩ : TemplateIssue) ∈
        unclosedBlockIssues tmpl content ↔
      searchEndblock b content = false) ∧
    (∀ i ∈ unclosedBlockIssues tmpl content, i.severity = "high") := by
  constructor
  · constructor
    · intro h
      obtain ⟨b', hb', hi⟩ := List.mem_map.mp h
      obtain ⟨_, hbp⟩ := List.mem_filter.mp hb'
      have hbb : b' = b :=
        congrArg (fun s => s.data) (congrArg TemplateIssue.block hi)
      rw [hbb] at hbp
      simpa using hbp
    · intro h
      refine List.mem_map.mpr ⟨b, List.mem_filter.mpr ⟨hb, by simp [h]⟩, rfl⟩
  · intro i hi
    obtain ⟨b', _, hi'⟩ := List.mem_map.mp hi
    rw [← hi']

/-- Witness for `C8_unclosed_block_iff_no_endblock_anywhere`: a lone
`{% block content %}` with no close tag is reported. -/
theorem C8_witness :
    (⟨"unclosed_block", "page.html", "content", "high"⟩ : TemplateIssue) ∈
      unclosedBlockIssues "page.html" ("{% block content %}".toList) := by
  have h := C8_unclosed_block_iff_no_endblock_anywhere "page.html"
    ("{% block content %}".toList) ("content".toList) (by decide)
  exact h.1.mpr (by decide)

/-! ## Hardcoded secrets (`diagnostic.py`: `_diagnose_security`;
`healing.py`: `_heal_security`)

The diagnostic scans file content with
`re.finditer(r'SECRET_KEY\s*=\s*[\'"]([^\'"]{10,})[\'"]', content,
re.IGNORECASE)` (and the analogous `password`/`api_key`/`token`
patterns), recording a `hardcoded_secret` issue of severity `high` at
line `content[:match.start()].count('\n') + 1`.

The repair, for an issue whose line contains `SECRET_KEY`, optionally
inserts `import os` after the last import line (a loop whose variable
shadows `line`, leaving it bound to the file's last line), then
replaces the line at the issue's index with
`re.sub(r'SECRET_KEY\s*=\s*[\'"]([^\'"]+)[\'"]',
"SECRET_KEY = os.environ.get('SECRET_KEY',
'development-key-CHANGE-ME-in-production')", line)`. -/

/-- Case-insensitive anchored match of a literal (the effect of
`re.IGNORECASE` on the literal part of the pattern). -/
def dropLitCI : List Char → List Char → Option (List Char)
  | [], l => some l
  | _ :: _, [] => none
  | p :: ps, c :: cs =>
      if c.toLower = p.toLower then dropLitCI ps cs else none

/-- Anchored match of `NAME\s*=\s*['"]([^'"]{minLen,})['"]` (the
secret-assignment pattern family); returns the captured literal and
the rest after the match.  The character-class repetitions are
maximal-munch, which coincides with the regex because whitespace,
word characters and quotes are disjoint classes here. -/
def matchSecretAssignAt (ci : Bool) (name : List Char) (minLen : Nat)
    (l : List Char) : Option (List Char × List Char) :=
  ((if ci then dropLitCI name l else dropLit name l)).bind fun r1 =>
    match r1.dropWhile isWsChar with
    | '=' :: r3 =>
        match r3.dropWhile isWsChar with
        | q :: r5 =>
            if isQuoteChar q then
              let cap := r5.takeWhile (fun c => !(isQuoteChar c))
              if minLen ≤ cap.length then
                match r5.dropWhile (fun c => !(isQuoteChar c)) with
                | q2 :: r7 => if isQuoteChar q2 then some (cap, r7) else none
                | [] => none
              else none
            else none
        | [] => none
    | _ => none

/-- `re.finditer` of one secret pattern (case-insensitive), yielding
the 1-based line number of each match start, resuming after each match
(fuel-bounded; every step consumes at least one character). -/
def findSecretsAux (name : List Char) (minLen : Nat) :
    Nat → Nat → List Char → List Nat
  | 0, _, _ => []
  | _ + 1, _, [] => []
  | fuel + 1, nl, c :: cs =>
      match matchSecretAssignAt true name minLen (c :: cs) with
      | some (_, rest) =>
          (nl + 1) ::
            findSecretsAux name minLen fuel
              (nl + (((c :: cs).take
                ((c :: cs).length - rest.length)).count '\n'))
              rest
      | none =>
          findSecretsAux name minLen fuel
            (if c = '\n' then nl + 1 else nl) cs

/-- The issue lines of one secret pattern over a file's content. -/
def findSecretLines (name : List Char) (minLen : Nat)
    (content : List Char) : List Nat :=
  findSecretsAux name minLen (content.length + 1) 0 content

/-- A security issue record of `_diagnose_security`. -/
structure SecurityIssue where
  type : String
  line : Nat
  description : String
  severity : String
deriving DecidableEq

/-- The `secret_patterns` table: name, minimum literal length,
description. -/
def secret_patterns : List (List Char × Nat × String) :=
  [("SECRET_KEY".toList, 10, "SECRET_KEY hardcoded"),
   ("password".toList, 6, "Senha hardcoded"),
   ("api_key".toList, 10, "API key hardcoded"),
   ("token".toList, 10, "Token hardcoded")]

/-- The `hardcoded_secret` issues of one file, pattern by pattern in
table order, matches in scan order. -/
def diagnose_security_file (content : List Char) : List SecurityIssue :=
  secret_patterns.flatMap fun p =>
    (findSecretLines p.1 p.2.1 content).map fun ln =>
      { type := "hardcoded_secret", line := ln,
        description := p.2.2, severity := "high" }

/-- `line.startswith('import ') or line.startswith('from ')`. -/
def startsWithImport (l : List Char) : Bool :=
  "import ".toList.isPrefixOf l || "from ".toList.isPrefixOf l

/-- The `last_import_line` loop: the last line index starting with an
import, or `0` when none does. -/
def lastImportLine (lines : List (List Char)) : Nat :=
  (List.range lines.length).foldl
    (fun acc i => if startsWithImport (lines.getD i []) then i else acc) 0

/-- `lines.insert(i, x)`. -/
def insertAt (l : List (List Char)) (i : Nat) (x : List Char) :
    List (List Char) :=
  l.take i ++ x :: l.drop i

/-- A single-quote character. -/
def sq : Char := '\''

/-- The fixed replacement text of the `SECRET_KEY` rewrite:
`SECRET_KEY = os.environ.get('SECRET_KEY',
'development-key-CHANGE-ME-in-production')`. -/
def secretReplacement : List Char :=
  "SECRET_KEY = os.environ.get(".toList ++ sq :: "SECRET_KEY".toList ++
    sq :: ", ".toList ++ sq ::
    "development-key-CHANGE-ME-in-production".toList ++ [sq, ')']

/-- `re.sub` of the (case-sensitive, `{1,}`) `SECRET_KEY` assignment
pattern by the fixed replacement, over one line. -/
def subSecretAux : Nat → List Char → List Char
  | 0, l => l
  | _ + 1, [] => []
  | fuel + 1, c :: cs =>
      match matchSecretAssignAt false "SECRET_KEY".toList 1 (c :: cs) with
      | some (_, rest) => secretReplacement ++ subSecretAux fuel rest
      | none => c :: subSecretAux fuel cs

/-- The `SECRET_KEY` line rewrite. -/
def subSecretLine (l : List Char) : List Char :=
  subSecretAux (l.length + 1) l

/-- The advisory marker appended for non-`SECRET_KEY` secrets. -/
def secretAdvisory : List Char :=
  " # TODO: Mover para variável de ambiente ou arquivo de configuração".toList

/-- The `hardcoded_secret` repair of `_heal_security` for one issue:
split the content into lines; if the issue's line contains
`SECRET_KEY`, insert `import os` after the last import line when the
content has neither `os.environ.get` nor `import os` (the loop that
finds the last import leaves its shadowing `line` variable bound to
the file's last line, which is then what gets rewritten), and replace
the line at the issue's index with the `re.sub` result; otherwise
append the advisory marker to that line. -/
def heal_hardcoded_secret (content : List Char) (issueLine : Nat) :
    List Char :=
  let lines := splitNl content
  let li := issueLine - 1
  if li < lines.length then
    let line := lines.getD li []
    if containsSub "SECRET_KEY".toList line then
      if !(containsSub "os.environ.get".toList content) then
        if !(containsSub "import os".toList content) then
          let lineVar := lines.getLastD []
          let lines1 := insertAt lines (lastImportLine lines + 1)
            "import os".toList
          joinNl (lines1.set li (subSecretLine lineVar))
        else
          joinNl (lines.set li (subSecretLine line))
      else
        joinNl (lines.set li (subSecretLine line))
    else
      joinNl (lines.set li (line ++ secretAdvisory))
  else content

/-- The canonical one-line configuration file
`SECRET_KEY = "<lit>"`. -/
def mkSecretContent (lit : List Char) : List Char :=
  "SECRET_KEY = ".toList ++ '"' :: (lit ++ ['"'])

theorem dropLit_self_append : ∀ (p r : List Char), dropLit p (p ++ r) = some r
  | [], r => rfl
  | c :: ps, r => by
      rw [List.cons_append, dropLit, if_pos rfl]
      exact dropLit_self_append ps r

theorem dropLitCI_self_append : ∀ (p r : List Char),
    dropLitCI p (p ++ r) = some r
  | [], r => rfl
  | c :: ps, r => by
      rw [List.cons_append, dropLitCI, if_pos rfl]
      exact dropLitCI_self_append ps r

theorem isPrefixOf_self_append : ∀ (p r : List Char),
    p.isPrefixOf (p ++ r) = true
  | [], r => by simp [List.isPrefixOf]
  | c :: ps, r => by
      rw [List.cons_append]
      simp only [List.isPrefixOf, beq_self_eq_true, Bool.true_and]
      exact isPrefixOf_self_append ps r

theorem containsSub_self_append (p r : List Char) (hp : p ≠ []) :
    containsSub p (p ++ r) = true := by
  rcases p with _ | ⟨c, ps⟩
  · exact absurd rfl hp
  · rw [List.cons_append, containsSub, ← List.cons_append,
      isPrefixOf_self_append]
    rfl

theorem splitNl_no_nl : ∀ (l : List Char), (∀ c ∈ l, c ≠ '\n') →
    splitNl l = [l]
  | [], _ => rfl
  | c :: cs, h => by
      rw [splitNl, if_neg (h c (by simp)), splitNl_no_nl cs
        (fun c' hc' => h c' (by simp [hc']))]

theorem splitNl_append_nl (a b : List Char) (ha : ∀ c ∈ a, c ≠ '\n') :
    splitNl (a ++ '\n' :: b) = a :: splitNl b := by
  induction a with
  | nil => rw [List.nil_append, splitNl, if_pos rfl]
  | cons c cs ih =>
      rw [List.cons_append, splitNl, if_neg (ha c (by simp)),
        ih (fun c' hc' => ha c' (by simp [hc']))]

theorem joinNl_pair (a b : List Char) : joinNl [a, b] = a ++ '\n' :: b := rfl

theorem findSecretsAux_nil (name : List Char) (minLen : Nat) :
    ∀ (fuel nl : Nat), findSecretsAux name minLen fuel nl [] = [] := by
  intro fuel nl
  cases fuel <;> rfl

theorem subSecretAux_nil : ∀ (fuel : Nat), subSecretAux fuel [] = [] := by
  intro fuel
  cases fuel <;> rfl

/-- The anchored secret-assignment match over the canonical file
`SECRET_KEY = "<lit>"`: it captures exactly the literal and consumes
the whole text. -/
theorem matchSecretAssignAt_mk (ci : Bool) (minLen : Nat) (lit : List Char)
    (hmin : minLen ≤ lit.length)
    (hq : ∀ c ∈ lit, isQuoteChar c = false) :
    matchSecretAssignAt ci "SECRET_KEY".toList minLen
      (mkSecretContent lit) = some (lit, []) := by
  have hsplit : mkSecretContent lit =
      "SECRET_KEY".toList ++
        (' ' :: '=' :: ' ' :: '"' :: (lit ++ ['"'])) := rfl
  have htake : (lit ++ ['"']).takeWhile (fun c => !(isQuoteChar c)) = lit := by
    rw [List.takeWhile_append_of_pos (fun a ha => by simp [hq a ha]),
      show List.takeWhile (fun c => !(isQuoteChar c)) ['"'] = [] from by decide,
      List.append_nil]
  have hdrop : (lit ++ ['"']).dropWhile (fun c => !(isQuoteChar c)) =
      ['"'] := by
    rw [List.dropWhile_append_of_pos (fun a ha => by simp [hq a ha]),
      show List.dropWhile (fun c => !(isQuoteChar c)) ['"'] = ['"'] from by
        decide]
  cases ci with
  | true =>
      show (if minLen ≤
            ((lit ++ ['"']).takeWhile (fun c => !(isQuoteChar c))).length then
          match (lit ++ ['"']).dropWhile (fun c => !(isQuoteChar c)) with
          | q2 :: r7 =>
              if isQuoteChar q2 then
                some ((lit ++ ['"']).takeWhile (fun c => !(isQuoteChar c)), r7)
              else none
          | [] => none
        else none) = some (lit, [])
      rw [htake, hdrop, if_pos hmin]
      rfl
  | false =>
      show (if minLen ≤
            ((lit ++ ['"']).takeWhile (fun c => !(isQuoteChar c))).length then
          match (lit ++ ['"']).dropWhile (fun c => !(isQuoteChar c)) with
          | q2 :: r7 =>
              if isQuoteChar q2 then
                some ((lit ++ ['"']).takeWhile (fun c => !(isQuoteChar c)), r7)
              else none
          | [] => none
        else none) = some (lit, [])
      rw [htake, hdrop, if_pos hmin]
      rfl

theorem matchCI_head_ne {p c : Char} {ps cs : List Char} {m : Nat}
    (h : ¬ c.toLower = p.toLower) :
    matchSecretAssignAt true (p :: ps) m (c :: cs) = none := by
  unfold matchSecretAssignAt
  rw [if_pos rfl, dropLitCI, if_neg h]
  rfl

theorem dropLitCI_suffix : ∀ (p l r : List Char),
    dropLitCI p l = some r → r <:+ l
  | [], l, r, h => by
      injection h with h
      exact h ▸ List.suffix_refl l
  | p :: ps, [], r, h => by cases h
  | p :: ps, c :: cs, r, h => by
      by_cases hc : c.toLower = p.toLower
      · rw [dropLitCI, if_pos hc] at h
        exact (dropLitCI_suffix ps cs r h).trans (List.suffix_cons c cs)
      · rw [dropLitCI, if_neg hc] at h
        cases h

theorem findSecretsAux_nil_of_no_match (name : List Char) (m : Nat) :
    ∀ (l : List Char),
      (∀ l', l' <:+ l → matchSecretAssignAt true name m l' = none) →
      ∀ (fuel nl : Nat), findSecretsAux name m fuel nl l = [] := by
  intro l
  induction l with
  | nil => intro _ fuel nl; exact findSecretsAux_nil name m fuel nl
  | cons c cs ih =>
      intro h fuel nl
      cases fuel with
      | zero => rfl
      | succ f =>
          have hm := h (c :: cs) (List.suffix_refl _)
          simp only [findSecretsAux]
          rw [hm]
          exact ih (fun l' hl' => h l' (hl'.trans (List.suffix_cons c cs))) f _

theorem match_none_of_elems (n0 : Char) (ns : List Char) (m : Nat)
    (lit : List Char) (hne : '=' ∉ lit) (l' : List Char)
    (helems : ∀ c ∈ l', c ∈ lit ∨ c = '"') :
    matchSecretAssignAt true (n0 :: ns) m l' = none := by
  cases hdrop : dropLitCI (n0 :: ns) l' with
  | none => simp [matchSecretAssignAt, hdrop]
  | some r1 =>
      have hr1 : r1 <:+ l' := dropLitCI_suffix _ _ _ hdrop
      have helems3 : ∀ c ∈ r1.dropWhile isWsChar, c ∈ lit ∨ c = '"' :=
        fun c hc =>
          helems c (hr1.subset ((List.dropWhile_suffix isWsChar).subset hc))
      unfold matchSecretAssignAt
      rw [if_pos rfl, hdrop, Option.some_bind]
      cases hdw : r1.dropWhile isWsChar with
      | nil => rfl
      | cons c2 r3 =>
          have hc2 : c2 ∈ lit ∨ c2 = '"' := helems3 c2 (by rw [hdw]; simp)
          have hc2ne : ¬ c2 = '=' := by
            intro heq
            subst heq
            rcases hc2 with hmem | hqq
            · exact hne hmem
            · exact absurd hqq (by decide)
          split
          · rename_i r4 heq
            injection heq with h1 _
            exact absurd h1 hc2ne
          · rfl

theorem matchCI_two_ne {p0 p1 c0 c1 : Char} {ps cs : List Char} {m : Nat}
    (h : ¬ c1.toLower = p1.toLower) :
    matchSecretAssignAt true (p0 :: p1 :: ps) m (c0 :: c1 :: cs) = none := by
  unfold matchSecretAssignAt
  rw [if_pos rfl, dropLitCI]
  by_cases h0 : c0.toLower = p0.toLower
  · rw [if_pos h0, dropLitCI, if_neg h]; rfl
  · rw [if_neg h0]; rfl

theorem findSecretLines_other_nil (lit : List Char) (hne : '=' ∉ lit)
    (name : List Char) (n0 n1 : Char) (ns : List Char) (m : Nat)
    (hname : name = n0 :: n1 :: ns)
    (hn0 : n0 = 'p' ∨ n0 = 'a' ∨ n0 = 't')
    (hn1 : n1 = 'a' ∨ n1 = 'p' ∨ n1 = 'o') :
    findSecretLines name m (mkSecretContent lit) = [] := by
  subst hname
  unfold findSecretLines
  apply findSecretsAux_nil_of_no_match
  intro l' hl'
  have hrw : mkSecretContent lit =
      'S' :: 'E' :: 'C' :: 'R' :: 'E' :: 'T' :: '_' :: 'K' :: 'E' :: 'Y' ::
        ' ' :: '=' :: ' ' :: '"' :: (lit ++ ['"']) := rfl
  rw [hrw] at hl'
  rcases List.suffix_cons_iff.mp hl' with heq | hl'
  · rw [heq]
    exact matchCI_head_ne (by rcases hn0 with h|h|h <;> subst h <;> decide)
  rcases List.suffix_cons_iff.mp hl' with heq | hl'
  · rw [heq]
    exact matchCI_head_ne (by rcases hn0 with h|h|h <;> subst h <;> decide)
  rcases List.suffix_cons_iff.mp hl' with heq | hl'
  · rw [heq]
    exact matchCI_head_ne (by rcases hn0 with h|h|h <;> subst h <;> decide)
  rcases List.suffix_cons_iff.mp hl' with heq | hl'
  · rw [heq]
    exact matchCI_head_ne (by rcases hn0 with h|h|h <;> subst h <;> decide)
  rcases List.suffix_cons_iff.mp hl' with heq | hl'
  · rw [heq]
    exact matchCI_head_ne (by rcases hn0 with h|h|h <;> subst h <;> decide)
  rcases List.suffix_cons_iff.mp hl' with heq | hl'
  · rw [heq]
    rcases hn0 with h|h|h <;> subst h
    · exact matchCI_head_ne (by decide)
    · exact matchCI_head_ne (by decide)
    · exact matchCI_two_ne
        (by rcases hn1 with h1|h1|h1 <;> subst h1 <;> decide)
  rcases List.suffix_cons_iff.mp hl' with heq | hl'
  · rw [heq]
    exact matchCI_head_ne (by rcases hn0 with h|h|h <;> subst h <;> decide)
  rcases List.suffix_cons_iff.mp hl' with heq | hl'
  · rw [heq]
    exact matchCI_head_ne (by rcases hn0 with h|h|h <;> subst h <;> decide)
  rcases List.suffix_cons_iff.mp hl' with heq | hl'
  · rw [heq]
    exact matchCI_head_ne (by rcases hn0 with h|h|h <;> subst h <;> decide)
  rcases List.suffix_cons_iff.mp hl' with heq | hl'
  · rw [heq]
    exact matchCI_head_ne (by rcases hn0 with h|h|h <;> subst h <;> decide)
  rcases List.suffix_cons_iff.mp hl' with heq | hl'
  · rw [heq]
    exact matchCI_head_ne (by rcases hn0 with h|h|h <;> subst h <;> decide)
  rcases List.suffix_cons_iff.mp hl' with heq | hl'
  · rw [heq]
    exact matchCI_head_ne (by rcases hn0 with h|h|h <;> subst h <;> decide)
  rcases List.suffix_cons_iff.mp hl' with heq | hl'
  · rw [heq]
    exact matchCI_head_ne (by rcases hn0 with h|h|h <;> subst h <;> decide)
  rcases List.suffix_cons_iff.mp hl' with heq | hl'
  · rw [heq]
    exact matchCI_head_ne (by rcases hn0 with h|h|h <;> subst h <;> decide)
  apply match_none_of_elems n0 (n1 :: ns) m lit hne l'
  intro c hc
  rcases List.mem_append.mp (hl'.subset hc) with h | h
  · exact Or.inl h
  · exact Or.inr (List.mem_singleton.mp h)

theorem findSecretLines_SK (lit : List Char)
    (hmin : 10 ≤ lit.length) (hq : ∀ c ∈ lit, isQuoteChar c = false) :
    findSecretLines "SECRET_KEY".toList 10 (mkSecretContent lit) = [1] := by
  unfold findSecretLines
  have hm := matchSecretAssignAt_mk true 10 lit hmin hq
  have hrw : mkSecretContent lit =
      'S' :: ("ECRET_KEY = ".toList ++ '"' :: (lit ++ ['"'])) := rfl
  rw [hrw] at hm ⊢
  simp only [findSecretsAux]
  rw [hm]
  simp [findSecretsAux_nil]

/-- The security diagnosis of the canonical one-line file: exactly one
`hardcoded_secret` issue, at line 1, severity `high`. -/
theorem diagnose_security_mk (lit : List Char)
    (hmin : 10 ≤ lit.length)
    (hq : ∀ c ∈ lit, isQuoteChar c = false)
    (hne : '=' ∉ lit) :
    diagnose_security_file (mkSecretContent lit) =
      [⟨"hardcoded_secret", 1, "SECRET_KEY hardcoded", "high"⟩] := by
  unfold diagnose_security_file secret_patterns
  simp only [List.flatMap_cons, List.flatMap_nil, List.append_nil]
  rw [findSecretLines_SK lit hmin hq,
    findSecretLines_other_nil lit hne "password".toList 'p' 'a'
      "ssword".toList 6 rfl (Or.inl rfl) (Or.inl rfl),
    findSecretLines_other_nil lit hne "api_key".toList 'a' 'p'
      "i_key".toList 10 rfl (Or.inr (Or.inl rfl)) (Or.inr (Or.inl rfl)),
    findSecretLines_other_nil lit hne "token".toList 't' 'o'
      "ken".toList 10 rfl (Or.inr (Or.inr rfl)) (Or.inr (Or.inr rfl))]
  simp

/-- The `SECRET_KEY` line rewrite of the canonical line yields exactly
the fixed replacement text. -/
theorem subSecretLine_mk (lit : List Char) (hlen : 1 ≤ lit.length)
    (hq : ∀ c ∈ lit, isQuoteChar c = false) :
    subSecretLine (mkSecretContent lit) = secretReplacement := by
  have hm := matchSecretAssignAt_mk false 1 lit hlen hq
  have hrw : mkSecretContent lit =
      'S' :: ("ECRET_KEY = ".toList ++ '"' :: (lit ++ ['"'])) := rfl
  unfold subSecretLine
  rw [hrw] at hm ⊢
  simp only [subSecretAux]
  rw [hm]
  simp [subSecretAux_nil]

theorem lastImportLine_singleton (x : List Char) :
    lastImportLine [x] = 0 := by
  cases h : startsWithImport x <;>
    simp [lastImportLine, show List.range 1 = [0] from by decide, h]

theorem mkSecretContent_no_nl (lit : List Char)
    (hnl : ∀ c ∈ lit, c ≠ '\n') :
    ∀ c ∈ mkSecretContent lit, c ≠ '\n' := by
  intro c hc heq
  subst heq
  unfold mkSecretContent at hc
  rcases List.mem_append.mp hc with h | h
  · exact absurd h (by decide)
  · rcases List.mem_cons.mp h with h1 | h1
    · exact absurd h1 (by decide)
    · rcases List.mem_append.mp h1 with h2 | h2
      · exact (hnl '\n' h2) rfl
      · exact absurd (List.mem_singleton.mp h2) (by decide)

/-- The healed canonical file: its first line is exactly the fixed
replacement text (in every branch of the repair — with or without the
`import os` insertion). -/
theorem heal_hardcoded_secret_mk (lit : List Char)
    (hlen : 10 ≤ lit.length)
    (hq : ∀ c ∈ lit, isQuoteChar c = false)
    (hnl : ∀ c ∈ lit, c ≠ '\n') :
    (splitNl (heal_hardcoded_secret (mkSecretContent lit) 1)).getD 0 [] =
      secretReplacement := by
  have hsplit : splitNl (mkSecretContent lit) = [mkSecretContent lit] :=
    splitNl_no_nl _ (mkSecretContent_no_nl lit hnl)
  have hsub : subSecretLine (mkSecretContent lit) = secretReplacement :=
    subSecretLine_mk lit (le_trans (by norm_num) hlen) hq
  have hsk : containsSub "SECRET_KEY".toList (mkSecretContent lit) = true := by
    rw [show mkSecretContent lit = "SECRET_KEY".toList ++
      (" = ".toList ++ '"' :: (lit ++ ['"'])) from rfl]
    exact containsSub_self_append _ _ (by decide)
  have hrnl : ∀ c ∈ secretReplacement, c ≠ '\n' := by decide
  unfold heal_hardcoded_secret
  rw [hsplit]
  cases henv : containsSub "os.environ.get".toList (mkSecretContent lit) with
  | true =>
      simp only [henv, Bool.not_true, Bool.false_eq_true, if_false,
        List.length_cons, List.length_nil, Nat.sub_self,
        List.getD_cons_zero, List.set_cons_zero, hsk, if_true,
        Nat.zero_lt_succ, hsub]
      rw [show joinNl [secretReplacement] = secretReplacement from rfl,
        splitNl_no_nl _ hrnl]
      rfl
  | false =>
      cases himp : containsSub "import os".toList (mkSecretContent lit) with
      | true =>
          simp only [henv, himp, Bool.not_true, Bool.not_false,
            Bool.false_eq_true, if_false, if_true, List.length_cons,
            List.length_nil, Nat.sub_self, Nat.zero_lt_succ,
            List.getD_cons_zero, List.set_cons_zero, hsk, hsub]
          rw [show joinNl [secretReplacement] = secretReplacement from rfl,
            splitNl_no_nl _ hrnl]
          rfl
      | false =>
          simp only [henv, himp, Bool.not_true, Bool.not_false,
            Bool.false_eq_true, if_false, if_true, List.length_cons,
            List.length_nil, Nat.sub_self, Nat.zero_lt_succ,
            List.getD_cons_zero, hsk, lastImportLine_singleton]
          rw [show List.getLastD [mkSecretContent lit] [] =
            mkSecretContent lit from rfl]
          rw [show insertAt [mkSecretContent lit] (0 + 1)
              "import os".toList =
            [mkSecretContent lit, "import os".toList] from rfl]
          rw [List.set_cons_zero, hsub, joinNl_pair,
            splitNl_append_nl _ _ hrnl]
          rfl

theorem containsSub_cons_of {n : List Char} (c : Char) {l : List Char}
    (h : containsSub n l = true) : containsSub n (c :: l) = true := by
  rw [containsSub]
  simp [h]

theorem containsSub_append_right (n l1 l2 : List Char)
    (h : containsSub n l2 = true) : containsSub n (l1 ++ l2) = true := by
  induction l1 with
  | nil => simpa using h
  | cons c cs ih =>
      rw [List.cons_append]
      exact containsSub_cons_of c ih

theorem containsSub_self (p : List Char) (hp : p ≠ []) :
    containsSub p p = true := by
  have h := containsSub_self_append p [] hp
  rwa [List.append_nil] at h

theorem containsSub_SK_mk (lit : List Char) :
    containsSub "SECRET_KEY".toList (mkSecretContent lit) = true := by
  rw [show mkSecretContent lit = "SECRET_KEY".toList ++
    (" = ".toList ++ '"' :: (lit ++ ['"'])) from rfl]
  exact containsSub_self_append _ _ (by decide)

theorem startsWithImport_mk (lit : List Char) :
    startsWithImport (mkSecretContent lit) = false := rfl

theorem lastImportLine_pair (a b : List Char)
    (ha : startsWithImport a = false) (hb : startsWithImport b = false) :
    lastImportLine [a, b] = 0 := by
  simp [lastImportLine, show List.range 2 = [0, 1] from by decide, ha, hb]

/-- C7 counterexample: for the config line
`SECRET_KEY = "CHANGE-ME-"` (a literal of the minimum length 10),
`diagnose` does yield one `hardcoded_secret`/high issue and `heal` does
rewrite the assignment to the environment-variable read — but the
rewritten line *does* contain the original literal value, because
`CHANGE-ME-` is a substring of the fixed development fallback
`development-key-CHANGE-ME-in-production`. -/
theorem C7_counterexample :
    diagnose_security_file (mkSecretContent "CHANGE-ME-".toList) =
      [⟨"hardcoded_secret", 1, "SECRET_KEY hardcoded", "high"⟩] ∧
    (splitNl (heal_hardcoded_secret
        (mkSecretContent "CHANGE-ME-".toList) 1)).getD 0 [] =
      secretReplacement ∧
    containsSub "CHANGE-ME-".toList secretReplacement = true := by
  refine ⟨by decide, by decide, by decide⟩

/-- C7 (amended): for a config file whose first line is the assignment
`SECRET_KEY = "<lit>"` with a literal of at least the minimum length 10
(no quotes, newlines or `=` in the literal), `diagnose` yields one
`hardcoded_secret` issue with severity `high`; but `heal` rewrites the
assignment to the fixed environment-variable read with the development
fallback only when no `import os` insertion is needed (the file is a
single line, or it already contains `import os` / `os.environ.get`).
In the rewritten form, the line is exactly the fixed replacement text,
so it contains the original literal only when the literal is itself a
substring of that fixed text (e.g. `CHANGE-ME-`); otherwise the
literal does not reappear.  When the insertion does run on a
multi-line file, the loop that locates the last import shadows the
`line` variable, so `heal` substitutes into the file's *last* line and
stores the result over the secret line (shifted by the insertion):
`SECRET_KEY = "<lit>"` followed by `x = 1` becomes
`x = 1 / import os / x = 1`, never producing the environment read. -/
theorem C7_secret_key_env_rewrite (lit : List Char)
    (hlen : 10 ≤ lit.length)
    (hchars : ∀ c ∈ lit, c ≠ '"' ∧ c ≠ '\'' ∧ c ≠ '\n' ∧ c ≠ '=') :
    diagnose_security_file (mkSecretContent lit) =
      [⟨"hardcoded_secret", 1, "SECRET_KEY hardcoded", "high"⟩] ∧
    (splitNl (heal_hardcoded_secret (mkSecretContent lit) 1)).getD 0 [] =
      secretReplacement ∧
    (containsSub lit secretReplacement = false →
      containsSub lit
        ((splitNl (heal_hardcoded_secret (mkSecretContent lit) 1)).getD 0 [])
        = false) ∧
    (containsSub "os.environ.get".toList
        (mkSecretContent lit ++ '\n' :: "x = 1".toList) = false →
      containsSub "import os".toList
        (mkSecretContent lit ++ '\n' :: "x = 1".toList) = false →
      heal_hardcoded_secret
          (mkSecretContent lit ++ '\n' :: "x = 1".toList) 1 =
        "x = 1".toList ++ '\n' ::
          ("import os".toList ++ '\n' :: "x = 1".toList)) ∧
    (containsSub "os.environ.get".toList
        (mkSecretContent lit ++ '\n' :: "import os".toList) = false →
      heal_hardcoded_secret
          (mkSecretContent lit ++ '\n' :: "import os".toList) 1 =
        secretReplacement ++ '\n' :: "import os".toList) := by
  have hq : ∀ c ∈ lit, isQuoteChar c = false := by
    intro c hc
    have h := hchars c hc
    simp [isQuoteChar, h.1, h.2.1]
  have hne : '=' ∉ lit := fun h => (hchars '=' h).2.2.2 rfl
  have hnl : ∀ c ∈ lit, c ≠ '\n' := fun c hc => (hchars c hc).2.2.1
  have hnlc : ∀ c ∈ mkSecretContent lit, c ≠ '\n' :=
    mkSecretContent_no_nl lit hnl
  have hsk := containsSub_SK_mk lit
  have hsub : subSecretLine (mkSecretContent lit) = secretReplacement :=
    subSecretLine_mk lit (le_trans (by norm_num) hlen) hq
  refine ⟨diagnose_security_mk lit hlen hq hne,
    heal_hardcoded_secret_mk lit hlen hq hnl, ?_, ?_, ?_⟩
  · intro hfree
    rw [heal_hardcoded_secret_mk lit hlen hq hnl]
    exact hfree
  · intro henv himp
    have hsplit4 : splitNl (mkSecretContent lit ++ '\n' :: "x = 1".toList) =
        [mkSecretContent lit, "x = 1".toList] := by
      rw [splitNl_append_nl _ _ hnlc, splitNl_no_nl _ (by decide)]
    unfold heal_hardcoded_secret
    rw [hsplit4]
    simp only [henv, himp, hsk, Bool.not_true, Bool.not_false,
      Bool.false_eq_true, if_false, if_true, List.length_cons,
      List.length_nil, Nat.sub_self, Nat.zero_lt_succ, List.getD_cons_zero]
    rw [show List.getLastD [mkSecretContent lit, "x = 1".toList] [] =
      "x = 1".toList from rfl]
    rw [lastImportLine_pair _ _ (startsWithImport_mk lit) (by decide)]
    rw [show insertAt [mkSecretContent lit, "x = 1".toList] (0 + 1)
        "import os".toList =
      [mkSecretContent lit, "import os".toList, "x = 1".toList] from rfl]
    rw [List.set_cons_zero,
      show subSecretLine "x = 1".toList = "x = 1".toList from by decide]
    rfl
  · intro henv
    have hsplit5 : splitNl
        (mkSecretContent lit ++ '\n' :: "import os".toList) =
        [mkSecretContent lit, "import os".toList] := by
      rw [splitNl_append_nl _ _ hnlc, splitNl_no_nl _ (by decide)]
    have himp5 : containsSub "import os".toList
        (mkSecretContent lit ++ '\n' :: "import os".toList) = true :=
      containsSub_append_right _ _ _
        (containsSub_cons_of '\n' (containsSub_self _ (by decide)))
    unfold heal_hardcoded_secret
    rw [hsplit5]
    simp only [henv, himp5, hsk, Bool.not_true, Bool.not_false,
      Bool.false_eq_true, if_false, if_true, List.length_cons,
      List.length_nil, Nat.sub_self, Nat.zero_lt_succ,
      List.getD_cons_zero, List.set_cons_zero, hsub]
    rw [joinNl_pair]

/-- Witness for `C7_secret_key_env_rewrite`: the spec's scenario
literal `abcdef1234567890` — it does not reappear in the rewritten
line of the single-line file, and the two multi-line cases (shadowed
clobbering without `import os`, correct rewrite with it) are exercised
concretely. -/
theorem C7_witness :
    diagnose_security_file (mkSecretContent "abcdef1234567890".toList) =
      [⟨"hardcoded_secret", 1, "SECRET_KEY hardcoded", "high"⟩] ∧
    (splitNl (heal_hardcoded_secret
        (mkSecretContent "abcdef1234567890".toList) 1)).getD 0 [] =
      secretReplacement ∧
    containsSub "abcdef1234567890".toList
      ((splitNl (heal_hardcoded_secret
        (mkSecretContent "abcdef1234567890".toList) 1)).getD 0 []) =
      false ∧
    heal_hardcoded_secret
        (mkSecretContent "abcdef1234567890".toList ++
          '\n' :: "x = 1".toList) 1 =
      "x = 1".toList ++ '\n' ::
        ("import os".toList ++ '\n' :: "x = 1".toList) ∧
    heal_hardcoded_secret
        (mkSecretContent "abcdef1234567890".toList ++
          '\n' :: "import os".toList) 1 =
      secretReplacement ++ '\n' :: "import os".toList := by
  have h := C7_secret_key_env_rewrite "abcdef1234567890".toList (by decide)
    (by decide)
  exact ⟨h.1, h.2.1, h.2.2.1 (by decide), h.2.2.2.1 (by decide) (by decide),
    h.2.2.2.2 (by decide)⟩
